import Mathlib

/-
Verification of the polara scoring-to-recommendation pipeline
(`polara/recommender/models.py`) against its specification.

Scores (numpy floats in the source) are modelled exactly as rationals; dense
matrices as functions out of `Fin n`; sparse structures by their explicit
entries; fallible code by `Except`; stateful attributes by explicit record
passing.  Every definition is translated from the source file; deviations
forced by totality (e.g. numpy raising on an empty reduction) are guarded by
`dif`/hypotheses and noted in the doc comments.
-/

namespace Polara

/-! ## Seen-item suppression (`RecommenderModel.downvote_seen_items`) -/

/-- A nonempty seen set on `Fin n` makes `univ` nonempty (used for the dense
minimum, `recs.min()`). -/
def seenUnivNonempty {n : ℕ} {seen : Finset (Fin n)} (hs : seen.Nonempty) :
    (Finset.univ : Finset (Fin n)).Nonempty := by
  obtain ⟨x, -⟩ := hs
  exact ⟨x, Finset.mem_univ x⟩

/-- Dense path of `downvote_seen_items`: flat positions `seen` of the surface
`recs` are rewritten to `recs.min() - (seen_data.max() - seen_data) - 1`.
NumPy raises on an empty `seen_data.max()`; we guard with `dif` and leave the
surface unchanged in that (vacuous) case. -/
def downvote_dense {n : ℕ} (recs : Fin n → ℚ) (seen : Finset (Fin n)) : Fin n → ℚ :=
  if hs : seen.Nonempty then fun i =>
    if i ∈ seen then
      Finset.univ.inf' (seenUnivNonempty hs) recs - (seen.sup' hs recs - recs i) - 1
    else recs i
  else recs

/-- The intersection of the explicit entries with the seen set being nonempty
makes the explicit-entry set nonempty (used for `recs.data.min()`). -/
def nzNonemptyOfInter {n : ℕ} {nz seen : Finset (Fin n)}
    (h : (nz ∩ seen).Nonempty) : nz.Nonempty := by
  obtain ⟨x, hx⟩ := h
  exact ⟨x, (Finset.mem_inter.mp hx).1⟩

/-- Sparse path of `downvote_seen_items`: `nz` is the set of explicit (stored)
entry positions, `data` their stored values.  Only positions in `nz ∩ seen`
are rewritten, to `recs.data.min() - (seen_data.max() - seen_data) - 1` where
the minimum ranges over all stored values and the maximum over the stored
seen values; if no seen entry is stored (`idx_seen_bool.any()` false) the call
is a no-op. -/
def sparseDownvote {n : ℕ} (nz : Finset (Fin n)) (data : Fin n → ℚ)
    (seen : Finset (Fin n)) : Fin n → ℚ :=
  if h : (nz ∩ seen).Nonempty then fun i =>
    if i ∈ nz ∩ seen then
      nz.inf' (nzNonemptyOfInter h) data - ((nz ∩ seen).sup' h data - data i) - 1
    else data i
  else data

/-- The score a sparse surface assigns to a position: the stored value at an
explicit entry, the implicit zero elsewhere. -/
def sparseScore {n : ℕ} (nz : Finset (Fin n)) (vals : Fin n → ℚ) (i : Fin n) : ℚ :=
  if i ∈ nz then vals i else 0

/-! ## Flattening policies (`CoffeeModel.flatten_scores`) -/

/-- The flattener values dispatched by `flatten_scores`: `none` (attribute not
set), a numpy reduction looked up by name (string case, carried here as the
function the name resolves to), an integer feedback level, a list of levels,
and the full slice `slice(None)`.  The tuple and callable branches of the
source are not needed by any claim and are not modelled. -/
inductive Flattener where
  | none : Flattener
  | npfun : (List ℚ → ℚ) → Flattener
  | int : ℕ → Flattener
  | list : List ℕ → Flattener
  | slice : Flattener

/-- Python truthiness of a flattener value: `None`, `0` and `[]` are falsy, so
the source line `flattener = flattener or slice(None)` replaces them by the
full slice before any `isinstance` dispatch happens. -/
def Flattener.falsy : Flattener → Bool
  | .none => true
  | .int 0 => true
  | .list [] => true
  | _ => false

/-- Action of a flattener on one (user, item) fiber along the feedback axis.
Every modelled branch of `flatten_scores` acts fiber-wise: the string case
applies the numpy reduction over the full axis, the int case indexes one
level (out-of-range indexing, which numpy rejects, is modelled by a default
of 0), the list case sums the selected levels, the slice case sums the whole
axis.  The falsy replacement happens first, exactly as in the source. -/
def flattenFiber (f : Flattener) (fiber : List ℚ) : ℚ :=
  match (if f.falsy then Flattener.slice else f) with
  | .npfun g => g fiber
  | .int i => fiber.getD i 0
  | .list l => (l.map (fun j => fiber.getD j 0)).sum
  | _ => fiber.sum

/-- `CoffeeModel.flatten_scores` on a (users × items × feedback) score cube. -/
def flatten_scores (cube : List (List (List ℚ))) (f : Flattener) : List (List ℚ) :=
  cube.map (fun row => row.map (flattenFiber f))

/-! ## Top-K extraction (`RecommenderModel.get_topk_items`) -/

/-- Descending sort of one row's (score, column) pairs.  The source composes
`np.argpartition` (select the top k) with `np.argsort(-data)` (order them);
both are modelled by one deterministic descending sort of the whole row. -/
def sortDesc (row : List (ℚ × ℤ)) : List (ℚ × ℤ) :=
  row.insertionSort (fun a b => b.1 ≤ a.1)

/-- `RecommenderModel.topsort`: the column ids of the `k` largest scores, in
descending score order. -/
def topsort (row : List (ℚ × ℤ)) (k : ℕ) : List ℤ :=
  ((sortDesc row).take k).map Prod.snd

/-- `topscore`, the local function of the sparse path: when `k >= nnz` sort the
whole row descending and right-pad with the sentinel `-1` (`_pad_const`) to
width `k`; otherwise take the top `k`. -/
def topscore (row : List (ℚ × ℤ)) (k : ℕ) : List ℤ :=
  if row.length ≤ k then
    (sortDesc row).map Prod.snd ++ List.replicate (k - row.length) (-1)
  else topsort row k

/-- The row keys present in a sparse matrix given by its explicit
(row, col, value) triples: `groupby(idx[0], sort=True)` enumerates only the
keys that occur, in ascending order. -/
def presentRows (entries : List (ℕ × ℕ × ℚ)) : List ℕ :=
  ((entries.map Prod.fst).dedup).insertionSort (fun a b => a ≤ b)

/-- The (score, column) pairs of one sparse row, in stored (CSR) order. -/
def rowOf (entries : List (ℕ × ℕ × ℚ)) (r : ℕ) : List (ℚ × ℤ) :=
  (entries.filter (fun e => e.1 == r)).map (fun e => (e.2.2, (e.2.1 : ℤ)))

/-- `get_topk_items`, sparse path: apply `topscore` to each row group produced
by the groupby.  Note that the output has one row per *present* row key, not
one row per user of the surface. -/
def get_topk_items_sparse (entries : List (ℕ × ℕ × ℚ)) (k : ℕ) : List (List ℤ) :=
  (presentRows entries).map (fun r => topscore (rowOf entries r) k)

/-! ## Prediction alignment (`RecommenderModel.get_matched_predictions`) -/

/-- The boolean match tensor
`recommendations[:, :, None] == holdout_matrix[:, None, :]`. -/
def matchTensor (recs hold : List (List ℤ)) : List (List (List Bool)) :=
  List.zipWith (fun r h => r.map (fun x => h.map (fun y => x == y))) recs hold

/-- The alignment part of `get_matched_predictions`: compare row counts,
truncate the longer matrix, and record the message printed.  The source
prints 'Evaluation set is truncated.' while truncating the recommendations
and 'Recommendations are truncated.' while truncating the holdout. -/
def get_matched_predictions (recs hold : List (List ℤ)) :
    List String × List (List (List Bool)) :=
  if hold.length < recs.length then
    (["Evaluation set is truncated."], matchTensor (recs.take hold.length) hold)
  else if recs.length < hold.length then
    (["Recommendations are truncated."], matchTensor recs (hold.take recs.length))
  else ([], matchTensor recs hold)

/-! ## The recommendation cache (`recommendations` property, `topk` and
`flattener` setters, `evaluate`) -/

/-- The model state relevant to the cache: the `_topk` attribute, the cached
`_recommendations` matrix and the `_flattener` policy value (of some type `F`
with decidable equality, matching the `!=` test of the setter). -/
structure RecState (F : Type) where
  topk : ℕ
  recs : Option (List (List ℤ))
  flattener : F

/-- `shape[1]` of a cached recommendation matrix. -/
def shape1 (m : List (List ℤ)) : ℕ := (m.headD []).length

/-- The `topk` setter: a new value strictly larger than the cached width
flushes the cache; any other value leaves it alone. -/
def topk_set {F : Type} (s : RecState F) (k : ℕ) : RecState F :=
  { s with
    topk := k
    recs := match s.recs with
      | some m => if shape1 m < k then Option.none else some m
      | Option.none => Option.none }

/-- The `CoffeeModel.flattener` setter: a value different from the current one
is stored and flushes the cache; the same value is a no-op. -/
def flattener_set {F : Type} [DecidableEq F] (s : RecState F) (f : F) : RecState F :=
  if f = s.flattener then s else { s with flattener := f, recs := Option.none }

/-- The `recommendations` property restricted to a ready model: serve the
cache if populated, otherwise compute once at the current `topk` (the scoring
pipeline is abstracted as `compute`).  Returns the matrix, the new state and
the number of recomputations performed. -/
def recommendations_read {F : Type} (compute : ℕ → List (List ℤ)) (s : RecState F) :
    List (List ℤ) × RecState F × ℕ :=
  match s.recs with
  | some m => (m, s, 0)
  | Option.none => (compute s.topk, { s with recs := some (compute s.topk) }, 1)

/-- The recommendation-access portion of `evaluate(topk = k)`: bump `topk`
when the request exceeds it (`if topk > self.topk`), read `recommendations`,
and serve the first `k` columns (`matched_predictions[:, :topk, :]` restricts
the recommendation axis to the first `k` entries of each cached row). -/
def evaluate_read {F : Type} (compute : ℕ → List (List ℤ)) (s : RecState F) (k : ℕ) :
    List (List ℤ) × RecState F × ℕ :=
  let s1 := if s.topk < k then topk_set s k else s
  let r := recommendations_read compute s1
  (r.1.map (List.take k), r.2.1, r.2.2)

/-! ## NotReady handling (`recommendations` property, full version) -/

/-- The Python exceptions the `recommendations` property distinguishes: an
`AttributeError` (an unbuilt model touching a missing factor attribute) is
caught; every other error propagates. -/
inductive PyError where
  | attributeError : PyError
  | other : String → PyError
deriving DecidableEq

/-- The `recommendations` property with its rebuild-once policy.  `getRecs`
and `build` abstract `get_recommendations` and `build` over an abstract model
state `σ`; `cached` is `_recommendations`.  On an `AttributeError` the model
is rebuilt once and extraction retried once; an error of the rebuild, or of
the retry, propagates.  The second component counts rebuild attempts. -/
def recommendations_rebuild {σ M : Type} (getRecs : σ → Except PyError M)
    (build : σ → Except PyError σ) (cached : Option M) (s : σ) :
    Except PyError (M × σ) × ℕ :=
  match cached with
  | some m => (.ok (m, s), 0)
  | Option.none =>
    match getRecs s with
    | .ok m => (.ok (m, s), 0)
    | .error .attributeError =>
      (match build s with
       | .error e => (.error e, 1)
       | .ok s2 =>
         match getRecs s2 with
         | .ok m => (.ok (m, s2), 1)
         | .error e => (.error e, 1))
    | .error (.other e) => (.error (.other e), 0)

/-! ## Chunked tensor score reconstruction (`CoffeeModel.get_recommendations`) -/

/-- One chunk's projected test slice:
`test_tensor_mat[start*I : stop*I, :].dot(w)`, reshaped to
(chunk, items, rankFeedback); element `(ul, i, q)`.  `T` is the flattened
test indicator matrix (row `u*I + i`, column `f`). -/
def sliceA (T w : ℕ → ℕ → ℚ) (I Fb : ℕ) (s ul i q : ℕ) : ℚ :=
  ∑ f ∈ Finset.range Fb, T (s * I + (ul * I + i)) f * w f q

/-- `np.tensordot(slice_scores, v, axes=(1, 0))`: contract the item axis;
element `(ul, q, p)`. -/
def sliceB (T v w : ℕ → ℕ → ℚ) (I Fb : ℕ) (s ul q p : ℕ) : ℚ :=
  ∑ i ∈ Finset.range I, sliceA T w I Fb s ul i q * v i p

/-- `np.tensordot(·, v, axes=(2, 1))`: contract the item-rank axis back;
element `(ul, q, i)`. -/
def sliceC (T v w : ℕ → ℕ → ℚ) (I Fb rI : ℕ) (s ul q i : ℕ) : ℚ :=
  ∑ p ∈ Finset.range rI, sliceB T v w I Fb s ul q p * v i p

/-- `np.tensordot(·, w, axes=(1, 1))`: contract the feedback-rank axis; the
reconstructed score cube of the chunk, element `(ul, i, f)`. -/
def sliceD (T v w : ℕ → ℕ → ℚ) (I Fb rI rF : ℕ) (s ul i f : ℕ) : ℚ :=
  ∑ q ∈ Finset.range rF, sliceC T v w I Fb rI s ul q i * w f q

/-- One chunk's contribution to `coffee_scores`:
`flatten_scores(slice_scores, flattener)` for the users `[s, stop)`. -/
def chunkBlock (T v w : ℕ → ℕ → ℚ) (I Fb rI rF : ℕ) (flat : Flattener)
    (s stop : ℕ) : List (List ℚ) :=
  flatten_scores
    ((List.range (stop - s)).map fun ul =>
      (List.range I).map fun i =>
        (List.range Fb).map fun f => sliceD T v w I Fb rI rF s ul i f) flat

/-- The loop `for i in xrange(0, n, c)`: each iteration appends the block for
users `[s, min(s + c, n))`; `fuel` bounds the number of iterations (the
source loop terminates because `c >= 1`). -/
def chunkLoop (block : ℕ → ℕ → List (List ℚ)) (n c : ℕ) :
    ℕ → ℕ → List (List ℚ)
  | 0, _ => []
  | fuel + 1, s =>
    if s < n then block s (min (s + c) n) ++ chunkLoop block n c fuel (s + c)
    else []

/-- The chunked score reconstruction of `CoffeeModel.get_recommendations`:
`coffee_scores[start:stop, :] = flatten_scores(slice_scores, flattener)`
assembled over chunks of `c` users. -/
def reconstruct (T v w : ℕ → ℕ → ℚ) (n I Fb rI rF : ℕ) (flat : Flattener)
    (c : ℕ) : List (List ℚ) :=
  chunkLoop (chunkBlock T v w I Fb rI rF flat) n c n 0

/-! ## Feedback remapping (`CoffeeModel.get_recommendations`, alignment check) -/

/-- `self.data.index.feedback.set_index('old').loc[v, 'new']`: look one raw
test feedback value up in the training feedback index. -/
def lookupOld (index : List (ℚ × ℕ)) (v : ℚ) : Option ℕ :=
  (index.find? (fun p => p.1 == v)).map Prod.snd

/-- The feedback remapping step: a missing key yields NaN in pandas and the
`np.isnan(fdbk_idx).any()` check raises
`NotImplementedError('Not all values of feedback are present in training data')`
before any score is computed; otherwise the remapped values are used. -/
def remapFeedback (index : List (ℚ × ℕ)) (vals : List ℚ) : Except String (List ℕ) :=
  let looked := vals.map (lookupOld index)
  if looked.any Option.isNone then
    .error "Not all values of feedback are present in training data"
  else .ok (looked.map (fun o => o.getD 0))

/-- `coo_matrix((ones, idx), shape=shp_flat)`: the flattened test indicator
matrix.  `ravel_multi_index` over `(n, I, Fb)` followed by `unravel_index`
over `(n*I, Fb)` sends the triple `(u, i, f)` to row `u*I + i`, column `f`;
duplicate triples accumulate. -/
def buildTestMat (I : ℕ) (users items fdbk : List ℕ) : ℕ → ℕ → ℚ :=
  fun r c =>
    (((users.zip items).zip fdbk).filter
      (fun t => t.1.1 * I + t.1.2 == r && t.2 == c)).length

/-- `CoffeeModel.get_recommendations` up to scoring: remap the test feedback
values against the training index, fail if any is missing, otherwise build
the test matrix and reconstruct the scores.  No partial result exists on the
error path. -/
def coffee_checked (index : List (ℚ × ℕ)) (vals : List ℚ) (users items : List ℕ)
    (v w : ℕ → ℕ → ℚ) (n I Fb rI rF : ℕ) (flat : Flattener) (c : ℕ) :
    Except String (List (List ℚ)) :=
  match remapFeedback index vals with
  | .error e => .error e
  | .ok fdbk =>
    .ok (reconstruct (buildTestMat I users items fdbk) v w n I Fb rI rF flat c)

/-! ## Theorems -/

/-- C10: with the default `flattener = None` (no flattening policy supplied),
`flatten_scores` collapses the feedback axis by summation over the entire
axis — the behaviour coincides with the explicit full-aggregate-by-`sum`
policy (the string case resolving to `np.sum`). -/
theorem flatten_scores_default_sum (cube : List (List (List ℚ))) :
    flatten_scores cube Flattener.none = cube.map (fun row => row.map List.sum)
      ∧ flatten_scores cube Flattener.none
          = flatten_scores cube (Flattener.npfun List.sum) :=
  ⟨rfl, rfl⟩

/-- C6 (failing input): on the cube `[[[1, 2]]]` the integer flattener `0`
does not return the feedback-level-0 slice `[[1]]`: the Python value `0` is
falsy, so `flattener or slice(None)` replaces it by the full slice and the
result is the feedback-axis sum `[[3]]`.  (Any integer level `i >= 1` does
slice as the claim states.) -/
theorem flatten_scores_int_zero_bug :
    flatten_scores [[[1, 2]]] (Flattener.int 0) = [[3]]
      ∧ flatten_scores [[[1, 2]]] (Flattener.int 0) ≠ [[1]]
      ∧ flatten_scores [[[1, 2]]] (Flattener.int 1) = [[2]] := by
  norm_num [flatten_scores, flattenFiber, Flattener.falsy]

/-- C2 (failing input): a sparse surface over 2 users whose only explicit
entry is (row 1, col 0, score 5), extracted with `topk = 1`: the output has a
single row `[0]` — user 0, having no explicit entries, is dropped from the
output instead of appearing as the sentinel row `[-1]`. -/
theorem get_topk_items_sparse_drops_empty_rows :
    get_topk_items_sparse [(1, 0, (5 : ℚ))] 1 = [[0]]
      ∧ (get_topk_items_sparse [(1, 0, (5 : ℚ))] 1).length = 1 :=
  ⟨rfl, rfl⟩

/-- C7 (failing input): recommendations with 5 rows against a holdout with 3
rows: the recommendations are truncated to 3 rows (the smaller count), but
the message printed is 'Evaluation set is truncated.' — the two report
messages in the source are swapped with respect to the action taken. -/
theorem get_matched_predictions_swapped_messages :
    (get_matched_predictions [[0], [1], [2], [3], [4]] [[0], [1], [2]]).1
        = ["Evaluation set is truncated."]
      ∧ (get_matched_predictions [[0], [1], [2], [3], [4]] [[0], [1], [2]]).2.length = 3
      ∧ (get_matched_predictions [[0], [1]] [[0], [1], [2]]).1
        = ["Recommendations are truncated."] :=
  ⟨rfl, rfl, rfl⟩

/-- C1 (counterexample to the literal sparse reading): a 2-location surface
with the single explicit entry at location 0 storing 10, seen set `{0}`.
Location 0 is a seen, explicit nonzero entry and is rewritten to
`10 - (10 - 10) - 1 = 9`; location 1 is not seen and carries the implicit
score 0.  The suppressed seen entry is *not* strictly less than this
non-seen score. -/
theorem downvote_sparse_counterexample :
    (0 : Fin 2) ∈ ({0} : Finset (Fin 2)) ∩ ({0} : Finset (Fin 2))
      ∧ (1 : Fin 2) ∉ ({0} : Finset (Fin 2))
      ∧ sparseScore {0} (sparseDownvote {0} ![10, 0] {0}) 0 = 9
      ∧ sparseScore {0} (sparseDownvote {0} ![10, 0] {0}) 1 = 0
      ∧ ¬ sparseScore {0} (sparseDownvote {0} ![10, 0] {0}) 0
          < sparseScore {0} (sparseDownvote {0} ![10, 0] {0}) 1 := by
  have hne : (({0} : Finset (Fin 2)) ∩ {0}).Nonempty := ⟨0, by decide⟩
  have h0 : sparseScore {0} (sparseDownvote {0} ![10, 0] {0}) (0 : Fin 2) = 9 := by
    simp only [sparseScore, sparseDownvote, dif_pos hne, Finset.inter_self]
    norm_num
  have h1 : sparseScore {0} (sparseDownvote {0} ![10, 0] {0}) (1 : Fin 2) = 0 := by
    simp only [sparseScore, sparseDownvote, dif_pos hne, Finset.inter_self]
    norm_num
  refine ⟨by decide, by decide, h0, h1, ?_⟩
  rw [h0, h1]
  norm_num

/-- C1 (amended): after seen-item suppression, in the dense case every seen
score is strictly below every non-seen score, each new score is
`(min(existingScores) - 1) - (maxSeen - s)`, and the relative order among the
suppressed entries is preserved; in the sparse case the same holds with both
sides restricted to explicit nonzero entries (floor and maximum taken over
stored values), and the call is a no-op when no seen entry is stored. -/
theorem downvote_seen_items_spec :
    (∀ (n : ℕ) (recs : Fin n → ℚ) (seen : Finset (Fin n)) (hs : seen.Nonempty),
      (∀ i ∈ seen, ∀ j ∉ seen,
          downvote_dense recs seen i < downvote_dense recs seen j)
      ∧ (∀ i ∈ seen, downvote_dense recs seen i
            = (Finset.univ.inf' (seenUnivNonempty hs) recs - 1)
              - (seen.sup' hs recs - recs i))
      ∧ (∀ i₁ ∈ seen, ∀ i₂ ∈ seen,
          (downvote_dense recs seen i₁ ≤ downvote_dense recs seen i₂
            ↔ recs i₁ ≤ recs i₂)))
    ∧ (∀ (m : ℕ) (nz : Finset (Fin m)) (data : Fin m → ℚ) (seen : Finset (Fin m)),
      (∀ i ∈ nz ∩ seen, ∀ j ∈ nz, j ∉ seen →
          sparseDownvote nz data seen i < sparseDownvote nz data seen j)
      ∧ (∀ h : (nz ∩ seen).Nonempty, ∀ i ∈ nz ∩ seen,
          sparseDownvote nz data seen i
            = (nz.inf' (nzNonemptyOfInter h) data - 1)
              - ((nz ∩ seen).sup' h data - data i))
      ∧ (∀ i₁ ∈ nz ∩ seen, ∀ i₂ ∈ nz ∩ seen,
          (sparseDownvote nz data seen i₁ ≤ sparseDownvote nz data seen i₂
            ↔ data i₁ ≤ data i₂))
      ∧ (nz ∩ seen = ∅ → sparseDownvote nz data seen = data)) := by
  constructor
  · intro n recs seen hs
    have hunf : ∀ i, downvote_dense recs seen i
        = if i ∈ seen then
            Finset.univ.inf' (seenUnivNonempty hs) recs - (seen.sup' hs recs - recs i) - 1
          else recs i := by
      intro i
      simp only [downvote_dense, dif_pos hs]
    refine ⟨?_, ?_, ?_⟩
    · intro i hi j hj
      rw [hunf i, hunf j, if_pos hi, if_neg hj]
      have h1 : recs i ≤ seen.sup' hs recs := Finset.le_sup' recs hi
      have h2 : Finset.univ.inf' (seenUnivNonempty hs) recs ≤ recs j :=
        Finset.inf'_le recs (Finset.mem_univ j)
      linarith
    · intro i hi
      rw [hunf i, if_pos hi]
      ring
    · intro i₁ h₁ i₂ h₂
      rw [hunf i₁, hunf i₂, if_pos h₁, if_pos h₂]
      constructor <;> intro h <;> linarith
  · intro m nz data seen
    refine ⟨?_, ?_, ?_, ?_⟩
    · intro i hi j hjnz hjseen
      have hne : (nz ∩ seen).Nonempty := ⟨i, hi⟩
      have hj : j ∉ nz ∩ seen := fun hmem => hjseen (Finset.mem_inter.mp hmem).2
      simp only [sparseDownvote, dif_pos hne, if_pos hi, if_neg hj]
      have h1 : data i ≤ (nz ∩ seen).sup' hne data := Finset.le_sup' data hi
      have h2 : nz.inf' (nzNonemptyOfInter hne) data ≤ data j :=
        Finset.inf'_le data hjnz
      linarith
    · intro h i hi
      simp only [sparseDownvote, dif_pos h, if_pos hi]
      ring
    · intro i₁ h₁ i₂ h₂
      have hne : (nz ∩ seen).Nonempty := ⟨i₁, h₁⟩
      simp only [sparseDownvote, dif_pos hne, if_pos h₁, if_pos h₂]
      constructor <;> intro h <;> linarith
    · intro h
      have : ¬ (nz ∩ seen).Nonempty := by
        rw [h]
        exact Finset.not_nonempty_empty
      simp only [sparseDownvote, dif_neg this]

/-- C1 witness: on the dense surface `[4, 1]` with seen set `{0}`, the
suppressed score at 0 drops strictly below the untouched score at 1. -/
theorem downvote_seen_items_spec_witness :
    downvote_dense ![(4 : ℚ), 1] {0} 0 < downvote_dense ![(4 : ℚ), 1] {0} 1 :=
  (downvote_seen_items_spec.1 2 ![(4 : ℚ), 1] {0} ⟨0, by decide⟩).1
    0 (by decide) 1 (by decide)

/-- The descending sort is a permutation of its input row. -/
theorem sortDesc_perm (row : List (ℚ × ℤ)) : List.Perm (sortDesc row) row :=
  List.perm_insertionSort _ row

/-- The descending sort is pairwise descending in the score component. -/
theorem sortDesc_sorted (row : List (ℚ × ℤ)) :
    List.Pairwise (fun a b => b.1 ≤ a.1) (sortDesc row) := by
  haveI h1 : IsTotal (ℚ × ℤ) (fun a b => b.1 ≤ a.1) := ⟨fun a b => le_total b.1 a.1⟩
  haveI h2 : IsTrans (ℚ × ℤ) (fun a b => b.1 ≤ a.1) :=
    ⟨fun a b c hab hbc => le_trans hbc hab⟩
  exact List.sorted_insertionSort _ row

/-- Sorting preserves the row length. -/
theorem sortDesc_length (row : List (ℚ × ℤ)) : (sortDesc row).length = row.length :=
  (sortDesc_perm row).length_eq

/-- C5: `topscore` always returns a row of width `k`; when the nonzero count
is below `k` it returns all real column ids sorted descending by score
followed by exactly `k - nnz` sentinel values `-1`; when the nonzero count is
at least `k` it returns `k` column ids, sorted descending by score, whose
scores dominate the scores of every entry left out. -/
theorem topscore_spec (row : List (ℚ × ℤ)) (k : ℕ) :
    (topscore row k).length = k
    ∧ (row.length < k →
        ∃ s, List.Perm s row
          ∧ List.Sorted (fun a b => a ≥ b) (s.map Prod.fst)
          ∧ topscore row k = s.map Prod.snd ++ List.replicate (k - row.length) (-1))
    ∧ (k ≤ row.length →
        ∃ c rest, List.Perm row (c ++ rest)
          ∧ c.length = k
          ∧ List.Sorted (fun a b => a ≥ b) (c.map Prod.fst)
          ∧ (∀ a ∈ c, ∀ b ∈ rest, b.1 ≤ a.1)
          ∧ topscore row k = c.map Prod.snd) := by
  refine ⟨?_, ?_, ?_⟩
  · by_cases h : row.length ≤ k
    · simp [topscore, h, sortDesc_length]
    · simp [topscore, h, topsort, sortDesc_length]
      omega
  · intro hlt
    refine ⟨sortDesc row, sortDesc_perm row, ?_, ?_⟩
    · rw [List.Sorted, List.pairwise_map]
      exact sortDesc_sorted row
    · rw [topscore, if_pos (le_of_lt hlt)]
  · intro hge
    refine ⟨(sortDesc row).take k, (sortDesc row).drop k, ?_, ?_, ?_, ?_, ?_⟩
    · rw [List.take_append_drop]
      exact (sortDesc_perm row).symm
    · rw [List.length_take, sortDesc_length]
      omega
    · rw [List.Sorted, List.pairwise_map]
      exact (sortDesc_sorted row).sublist (List.take_sublist k _)
    · have h := sortDesc_sorted row
      rw [← List.take_append_drop k (sortDesc row)] at h
      exact (List.pairwise_append.mp h).2.2
    · rcases Nat.lt_or_ge k row.length with h | h
      · rw [topscore, if_neg (by omega)]
        rfl
      · have hk : k = row.length := le_antisymm hge (by omega)
        rw [topscore, if_pos (le_of_eq hk.symm)]
        have : (sortDesc row).take k = sortDesc row := by
          apply List.take_of_length_le
          rw [sortDesc_length]
          omega
        rw [this.symm]
        simp [hk]

/-- C5 witness: the short row `[(5, 0), (3, 1)]` extracted at `k = 3` yields
its two real ids descending plus one sentinel. -/
theorem topscore_spec_witness :
    (2 : ℕ) < 3
    ∧ (∃ s, List.Perm s [((5 : ℚ), (0 : ℤ)), (3, 1)]
        ∧ List.Sorted (fun a b => a ≥ b) (s.map Prod.fst)
        ∧ topscore [((5 : ℚ), (0 : ℤ)), (3, 1)] 3
            = s.map Prod.snd ++ List.replicate (3 - 2) (-1)) :=
  ⟨by decide, (topscore_spec [((5 : ℚ), (0 : ℤ)), (3, 1)] 3).2.1 (by decide)⟩

/-- C3: cache laws of the recommendation state machine.  From a state
populated at width `w` (with the reachable-state invariant `topk <= w`):
a read at `k <= w` performs zero recomputations and serves the cached matrix
sliced to `k` columns (the `topk` attribute only ever moves up to `k`); a
read at `k > w` first empties the cache in the setter, performs exactly one
recomputation and leaves the cache populated at width `k`; setting the
flattener to a different value empties the cache; a decrease of `topk` never
invalidates it. -/
theorem recommendation_cache_laws {F : Type} [DecidableEq F]
    (compute : ℕ → List (List ℤ)) (s : RecState F) (m : List (List ℤ)) (w : ℕ)
    (hm : s.recs = some m) (hw : shape1 m = w) (htopk : s.topk ≤ w)
    (hc : ∀ k, shape1 (compute k) = k) :
    (∀ k ≤ w, evaluate_read compute s k
        = (m.map (List.take k), { s with topk := max s.topk k, recs := some m }, 0))
    ∧ (∀ k, w < k →
        (topk_set s k).recs = Option.none
        ∧ evaluate_read compute s k
            = ((compute k).map (List.take k),
               { s with topk := k, recs := some (compute k) }, 1)
        ∧ shape1 (compute k) = k)
    ∧ (∀ f, f ≠ s.flattener → (flattener_set s f).recs = Option.none)
    ∧ (∀ k ≤ s.topk, (topk_set s k).recs = some m) := by
  obtain ⟨st, sr, sf⟩ := s
  subst hm
  subst hw
  dsimp only at htopk
  refine ⟨?_, ?_, ?_, ?_⟩
  · intro k hk
    by_cases h : st < k
    · have hkeep : ¬ shape1 m < k := by omega
      simp [evaluate_read, topk_set, recommendations_read, h, hkeep,
        Nat.max_eq_right (le_of_lt h)]
    · simp [evaluate_read, recommendations_read, h, Nat.max_eq_left (by omega : k ≤ st)]
  · intro k hk
    have h : st < k := by omega
    have hflush : shape1 m < k := by omega
    refine ⟨by simp [topk_set, hflush], ?_, hc k⟩
    simp [evaluate_read, topk_set, recommendations_read, h, hflush]
  · intro f hf
    simp [flattener_set, hf]
  · intro k hk
    dsimp only at hk
    have : ¬ shape1 m < k := by omega
    simp [topk_set, this]

/-- C3 witness: a concrete populated state at width 3 with `topk = 2`: a read
at 2 is served from the cache with zero recomputations, a read at 4 flushes
and recomputes exactly once at width 4. -/
theorem recommendation_cache_laws_witness :
    evaluate_read (fun k => [(List.range k).map Int.ofNat])
        ({ topk := 2, recs := some [[7, 8, 9]], flattener := (0 : ℤ) } : RecState ℤ) 2
      = ([[7, 8]], { topk := 2, recs := some [[7, 8, 9]], flattener := (0 : ℤ) }, 0)
    ∧ (topk_set ({ topk := 2, recs := some [[7, 8, 9]], flattener := (0 : ℤ) } : RecState ℤ) 4).recs
      = Option.none
    ∧ evaluate_read (fun k => [(List.range k).map Int.ofNat])
        ({ topk := 2, recs := some [[7, 8, 9]], flattener := (0 : ℤ) } : RecState ℤ) 4
      = ([[0, 1, 2, 3]], { topk := 4, recs := some [[0, 1, 2, 3]], flattener := (0 : ℤ) }, 1) := by
  have h := recommendation_cache_laws (fun k => [(List.range k).map Int.ofNat])
      ({ topk := 2, recs := some [[7, 8, 9]], flattener := (0 : ℤ) } : RecState ℤ)
      [[7, 8, 9]] 3 rfl rfl (by decide) (by intro k; simp [shape1])
  refine ⟨?_, (h.2.1 4 (by decide)).1, ?_⟩
  · exact h.1 2 (by decide)
  · exact (h.2.1 4 (by decide)).2.1

/-- C9: a `recommendations` read on an unbuilt model (empty cache and
extraction failing with `AttributeError`) performs exactly one implicit
rebuild and one retried extraction: a failing rebuild propagates its own
error, a successful rebuild followed by a successful extraction returns the
extracted matrix (a failing retry propagates too, with no second rebuild),
and a read with a populated cache returns it with zero rebuilds. -/
theorem recommendations_notready_policy {σ M : Type}
    (getRecs : σ → Except PyError M) (build : σ → Except PyError σ) (s : σ)
    (hnr : getRecs s = .error .attributeError) :
    (recommendations_rebuild getRecs build Option.none s).2 = 1
    ∧ (∀ e, build s = .error e →
        recommendations_rebuild getRecs build Option.none s = (.error e, 1))
    ∧ (∀ s2, build s = .ok s2 →
        (∀ m, getRecs s2 = .ok m →
          recommendations_rebuild getRecs build Option.none s = (.ok (m, s2), 1))
        ∧ (∀ e, getRecs s2 = .error e →
          recommendations_rebuild getRecs build Option.none s = (.error e, 1)))
    ∧ (∀ (m : M) (t : σ),
        recommendations_rebuild getRecs build (some m) t = (.ok (m, t), 0)) := by
  refine ⟨?_, ?_, ?_, ?_⟩
  · simp only [recommendations_rebuild, hnr]
    cases hb : build s with
    | error e => simp [hb]
    | ok s2 =>
      simp only [hb]
      cases hg : getRecs s2 with
      | error e => simp [hg]
      | ok m => simp [hg]
  · intro e he
    simp only [recommendations_rebuild, hnr, he]
  · intro s2 hb
    constructor
    · intro m hm
      simp only [recommendations_rebuild, hnr, hb, hm]
    · intro e he
      simp only [recommendations_rebuild, hnr, hb, he]
  · intro m t
    rfl

/-- C9 witness: an unbuilt two-state model (built flag as state): the read
rebuilds once and returns the extraction of the rebuilt state. -/
theorem recommendations_notready_policy_witness :
    (fun b : Bool => if b then Except.ok 7 else Except.error PyError.attributeError) false
        = Except.error PyError.attributeError
    ∧ recommendations_rebuild
        (fun b : Bool => if b then Except.ok 7 else Except.error PyError.attributeError)
        (fun _ => Except.ok true) Option.none false
      = (Except.ok (7, true), 1) :=
  ⟨rfl,
    ((recommendations_notready_policy
        (fun b : Bool => if b then Except.ok 7 else Except.error PyError.attributeError)
        (fun _ => Except.ok true) false rfl).2.2.1 true rfl).1 7 rfl⟩

/-- The score cube entry of local user `ul` in the chunk starting at `s` is
the entry of global user `s + ul` in a chunk starting there: the only use of
the chunk offset is the flat row index `s*I + (ul*I + i)`. -/
theorem sliceD_shift (T v w : ℕ → ℕ → ℚ) (I Fb rI rF : ℕ) (s ul i f : ℕ) :
    sliceD T v w I Fb rI rF s ul i f = sliceD T v w I Fb rI rF (s + ul) 0 i f := by
  have hidx : ∀ j : ℕ, (s + ul) * I + (0 * I + j) = s * I + (ul * I + j) := by
    intro j
    ring
  simp only [sliceD, sliceC, sliceB, sliceA, hidx]

/-- A chunk's block is the list of global per-user output rows for its user
range. -/
theorem chunkBlock_eq_map (T v w : ℕ → ℕ → ℚ) (I Fb rI rF : ℕ) (flat : Flattener)
    (s stop : ℕ) :
    chunkBlock T v w I Fb rI rF flat s stop
      = (List.range (stop - s)).map fun ul =>
          (List.range I).map fun i =>
            flattenFiber flat ((List.range Fb).map fun f =>
              sliceD T v w I Fb rI rF (s + ul) 0 i f) := by
  simp only [chunkBlock, flatten_scores, List.map_map]
  refine List.map_congr_left ?_
  intro ul _
  simp only [Function.comp, List.map_map]
  refine List.map_congr_left ?_
  intro i _
  dsimp only [Function.comp]
  congr 1
  refine List.map_congr_left ?_
  intro f _
  exact sliceD_shift T v w I Fb rI rF s ul i f

/-- The chunk loop with any positive step assembles exactly the per-user rows
of `[s, n)`, in order. -/
theorem chunkLoop_eq_range (block : ℕ → ℕ → List (List ℚ)) (g : ℕ → List ℚ)
    (n c : ℕ) (hc : 0 < c)
    (hblock : ∀ s stop, block s stop = (List.range (stop - s)).map (fun ul => g (s + ul))) :
    ∀ fuel s, n ≤ s + fuel * c →
      chunkLoop block n c fuel s = (List.range' s (n - s)).map g := by
  intro fuel
  induction fuel with
  | zero =>
    intro s hle
    simp only [Nat.zero_mul, Nat.add_zero] at hle
    rw [chunkLoop]
    have : n - s = 0 := by omega
    rw [this]
    rfl
  | succ fuel ih =>
    intro s hle
    rw [chunkLoop]
    by_cases h : s < n
    · rw [if_pos h, hblock]
      have hrange : (List.range (min (s + c) n - s)).map (fun ul => g (s + ul))
          = (List.range' s (min (s + c) n - s)).map g := by
        rw [List.range'_eq_map_range, List.map_map]
        rfl
      have hle2 : n ≤ s + c + fuel * c := by
        rw [Nat.succ_mul] at hle
        omega
      rw [hrange, ih (s + c) hle2]
      rw [← List.map_append]
      congr 1
      rcases le_or_lt (s + c) n with hcase | hcase
      · have hmin : min (s + c) n = s + c := by omega
        rw [hmin]
        have h1 : s + (s + c - s) = s + c := by omega
        calc List.range' s (s + c - s) ++ List.range' (s + c) (n - (s + c))
            = List.range' s (s + c - s) ++ List.range' (s + (s + c - s)) (n - (s + c)) := by
              rw [h1]
          _ = List.range' s (n - (s + c) + (s + c - s)) := List.range'_append_1 _ _ _
          _ = List.range' s (n - s) := by
              congr 1
              omega
      · have hmin : min (s + c) n = n := by omega
        rw [hmin]
        have h2 : n - (s + c) = 0 := by omega
        rw [h2]
        simp
    · rw [if_neg h]
      have : n - s = 0 := by omega
      rw [this]
      rfl

/-- Chunked reconstruction with any positive chunk size equals the per-user
row map over all `n` test users. -/
theorem reconstruct_eq_rows (T v w : ℕ → ℕ → ℚ) (n I Fb rI rF : ℕ)
    (flat : Flattener) (c : ℕ) (hc : 0 < c) :
    reconstruct T v w n I Fb rI rF flat c
      = (List.range' 0 n).map (fun u =>
          (List.range I).map fun i =>
            flattenFiber flat ((List.range Fb).map fun f =>
              sliceD T v w I Fb rI rF u 0 i f)) := by
  rw [reconstruct]
  have h := chunkLoop_eq_range (chunkBlock T v w I Fb rI rF flat)
      (fun u => (List.range I).map fun i =>
        flattenFiber flat ((List.range Fb).map fun f =>
          sliceD T v w I Fb rI rF u 0 i f)) n c hc
      (fun s stop => chunkBlock_eq_map T v w I Fb rI rF flat s stop)
      n 0 (by
        have hmul : n * 1 ≤ n * c := Nat.mul_le_mul (Nat.le_refl n) hc
        simpa using hmul)
  rw [h]
  rfl

/-- C4: for every fixed set of inputs (test matrix, item factors `v`,
feedback factors `w`, flattening policy), chunked score reconstruction with
any two positive chunk sizes produces identical output matrices. -/
theorem reconstruct_chunk_invariant (T v w : ℕ → ℕ → ℚ) (n I Fb rI rF : ℕ)
    (flat : Flattener) (c1 c2 : ℕ) (h1 : 0 < c1) (h2 : 0 < c2) :
    reconstruct T v w n I Fb rI rF flat c1 = reconstruct T v w n I Fb rI rF flat c2 := by
  rw [reconstruct_eq_rows T v w n I Fb rI rF flat c1 h1,
    reconstruct_eq_rows T v w n I Fb rI rF flat c2 h2]

/-- C4 witness: a concrete 2-user reconstruction with chunk sizes 1 and 2. -/
theorem reconstruct_chunk_invariant_witness :
    (0 : ℕ) < 1 ∧ (0 : ℕ) < 2
    ∧ reconstruct (fun r f => (r : ℚ) + f) (fun i p => (i : ℚ) * p + 1)
        (fun f q => (f : ℚ) + q) 2 1 1 1 1 Flattener.none 1
      = reconstruct (fun r f => (r : ℚ) + f) (fun i p => (i : ℚ) * p + 1)
        (fun f q => (f : ℚ) + q) 2 1 1 1 1 Flattener.none 2 :=
  ⟨by decide, by decide,
    reconstruct_chunk_invariant (fun r f => (r : ℚ) + f) (fun i p => (i : ℚ) * p + 1)
      (fun f q => (f : ℚ) + q) 2 1 1 1 1 Flattener.none 1 2 (by decide) (by decide)⟩

/-- C8 (amended): tensor score reconstruction fails — with the fixed error
message `Not all values of feedback are present in training data`, which does
not enumerate the offending values — whenever some test feedback value has no
entry in the training feedback index, and no partial result is returned; when
every test feedback value is present, the error branch is never taken and the
reconstruction proceeds on the remapped values. -/
theorem coffee_feedback_alignment (index : List (ℚ × ℕ)) (vals : List ℚ)
    (users items : List ℕ) (v w : ℕ → ℕ → ℚ) (n I Fb rI rF : ℕ)
    (flat : Flattener) (c : ℕ) :
    ((∀ x ∈ vals, (lookupOld index x).isSome) →
      coffee_checked index vals users items v w n I Fb rI rF flat c
        = .ok (reconstruct (buildTestMat I users items
            (vals.map (fun x => (lookupOld index x).getD 0))) v w n I Fb rI rF flat c))
    ∧ ((∃ x ∈ vals, lookupOld index x = Option.none) →
      coffee_checked index vals users items v w n I Fb rI rF flat c
        = .error "Not all values of feedback are present in training data") := by
  constructor
  · intro hall
    have hany : (vals.map (lookupOld index)).any Option.isNone = false := by
      rw [List.any_eq_false]
      intro o ho
      rw [List.mem_map] at ho
      obtain ⟨x, hx, rfl⟩ := ho
      obtain ⟨y, hy⟩ := Option.isSome_iff_exists.mp (hall x hx)
      rw [hy]
      simp
    simp only [coffee_checked, remapFeedback, hany, Bool.false_eq_true, if_false,
      List.map_map]
    rfl
  · rintro ⟨x, hx, hnone⟩
    have hany : (vals.map (lookupOld index)).any Option.isNone = true := by
      rw [List.any_eq_true]
      refine ⟨lookupOld index x, List.mem_map_of_mem _ hx, ?_⟩
      rw [hnone]
      rfl
    simp only [coffee_checked, remapFeedback, hany, if_true]

/-- C8 witness: with training index `{1 -> 0}` and the single present test
feedback value `1`, the error branch is not taken and reconstruction runs on
the remapped values. -/
theorem coffee_feedback_alignment_witness :
    coffee_checked [((1 : ℚ), 0)] [1] [0] [0] (fun _ _ => 0) (fun _ _ => 0)
        1 1 1 1 1 Flattener.none 1
      = .ok (reconstruct (buildTestMat 1 [0] [0]
          ([(1 : ℚ)].map (fun x => (lookupOld [((1 : ℚ), 0)] x).getD 0)))
          (fun _ _ => 0) (fun _ _ => 0) 1 1 1 1 1 Flattener.none 1) :=
  (coffee_feedback_alignment [((1 : ℚ), 0)] [1] [0] [0] (fun _ _ => 0) (fun _ _ => 0)
      1 1 1 1 1 Flattener.none 1).1 (by decide)

/-- C8 (counterexample to 'reporting the offending values'): for two runs
whose only difference is the missing test feedback value (5 in one, 7 in the
other), the error raised is one and the same fixed string — the offending
values are not part of the report. -/
theorem coffee_feedback_error_message_fixed :
    coffee_checked [((1 : ℚ), 0)] [5] [0] [0] (fun _ _ => 0) (fun _ _ => 0)
        1 1 1 1 1 Flattener.none 1
      = .error "Not all values of feedback are present in training data"
    ∧ coffee_checked [((1 : ℚ), 0)] [7] [0] [0] (fun _ _ => 0) (fun _ _ => 0)
        1 1 1 1 1 Flattener.none 1
      = .error "Not all values of feedback are present in training data" :=
  ⟨rfl, rfl⟩

end Polara
